import Mathlib

/-!
Shallow embedding of the goofy-guesser scoring and leaderboard aggregation
subsystem, translated from the repository sources:

* `supabase/local_date_scoring.sql` — the adopted local-date leaderboard
  (materialized view `leaderboard_scores`: CTEs `daily_winners`,
  `point_earners`, `earned_scores`, `adjustment_totals`, `all_members`).
* `supabase/fix_leaderboard_view.sql` — schema (`daily_results` with
  `CHECK (guess_count >= 1 AND guess_count <= 6)` and
  `UNIQUE(user_id, group_id, day_index)`), and the `current_members` view.
* the unnamed migration adding personal plays (nullable `group_id`, partial
  unique index on `(user_id, local_date) WHERE group_id IS NULL`).
* the unnamed `realtime_scoring` migration (`refresh_leaderboard` trigger
  function, statement-level triggers on insert/delete of `daily_results`
  and `score_adjustments`).
* `supabase/utc_scoring.sql` — the superseded UTC-12 finalization policy
  (`finalized_days`, `is_day_finalized`).
* the unnamed `useGameResults` hook (`getLocalDate`, `getTimezoneOffset`,
  `calculateDayIndex`, `submitResult`, `submitPersonalResult`).
* `components/Leaderboard.tsx` (`handleResetScores`, the leaderboard fetch
  ordered by `total_score` descending).

Modelling conventions: user ids and group ids are `Nat`; SQL `DATE` values
are day numbers (`Int`, days since an arbitrary epoch); timestamps are
epoch minutes (`Int`).  A JavaScript `Date` is modelled as an `Instant`:
the UTC epoch minute plus the value `getTimezoneOffset()` returns, so the
local wall-clock minute is `utcMin - tzOff`.  JavaScript `Math.floor` of a
division by a positive constant coincides with `Int` division `/` (which
is floor division for positive divisors).  Tables are lists of rows; SQL
`SUM`/`MIN`/`COUNT` become list folds; `LEFT JOIN ... COALESCE(x, 0)`
becomes a sum or count over a filtered list (0 when the filter is empty).
-/

namespace GoofyGuesser

/-- A JavaScript `Date` at the moment of submission: the UTC epoch minute and
the submitter's `getTimezoneOffset()` (minutes; local time = UTC − offset). -/
structure Instant where
  utcMin : Int
  tzOff : Int
  deriving Repr, DecidableEq

/-- One row of the `daily_results` table (schema in `fix_leaderboard_view.sql`
plus the nullable `group_id` migration for personal plays). -/
structure ResultRow where
  user_id : Nat
  group_id : Option Nat
  day_index : Int
  guess_count : Nat
  solved : Bool
  submitted_at : Int
  local_date : Int
  timezone_offset : Int
  deriving Repr, DecidableEq

/-- One row of the `score_adjustments` table. -/
structure AdjustmentRow where
  user_id : Nat
  group_id : Nat
  adjustment : Int
  adjusted_by : Nat
  deriving Repr, DecidableEq

/-- One row of the `group_members` table (fields the scoring logic reads). -/
structure MemberRow where
  user_id : Nat
  group_id : Nat
  is_admin : Bool
  deriving Repr, DecidableEq

/-- The database state the scoring subsystem reads and writes.  Profiles are
kept outside: `group_members.user_id` has a foreign key into `profiles`, so
usernames are a total function of the user id, passed as a parameter. -/
structure DB where
  daily_results : List ResultRow
  score_adjustments : List AdjustmentRow
  group_members : List MemberRow
  deriving Repr, DecidableEq

/-! ### Day-key resolver (`useGameResults` hook, current version)

`getLocalDate` composes `getFullYear`/`getMonth`/`getDate` of the local
wall-clock time — the calendar date observed in the submitter's own
timezone — which as a day number is the floor of the local epoch minute
over 1440. -/

/-- Function `getLocalDate` from the current `useGameResults` hook: the submitter's own
local calendar date, as a day number. -/
def getLocalDate (i : Instant) : Int :=
  (i.utcMin - i.tzOff) / 1440

/-- Function `getTimezoneOffset` from the `useGameResults` hook. -/
def getTimezoneOffset (i : Instant) : Int :=
  i.tzOff

/-- Function `calculateDayIndex` from the `useGameResults` hook:
`Math.floor((todayMidnight - joinMidnight) / day)` where both timestamps are
local midnights (`setHours(0,0,0,0)`).  The local midnight of local day `d`
under offset `o` is the epoch minute `d * 1440 + o`.  `joinedDay`/`joinedOff`
are the local day and offset at `joined_at`. -/
def calculateDayIndex (joinedDay joinedOff : Int) (now : Instant) : Int :=
  ((getLocalDate now * 1440 + now.tzOff) - (joinedDay * 1440 + joinedOff)) / 1440

/-! ### Winner selector and score aggregator (`local_date_scoring.sql`) -/

/-- The solved rows of group `g` on local date `d` (the rows the
`daily_winners` CTE aggregates for that group and date). -/
def solvedAt (rs : List ResultRow) (g : Nat) (d : Int) : List ResultRow :=
  rs.filter fun r => r.solved && r.group_id == some g && r.local_date == d

/-- The `daily_winners` CTE: `MIN(guess_count)` over solved rows of `(g, d)`;
`none` when the group/date has no solved rows (no output row in SQL). -/
def min_guesses (rs : List ResultRow) (g : Nat) (d : Int) : Option Nat :=
  ((solvedAt rs g d).map fun r => r.guess_count).min?

/-- The `point_earners` join condition for one row: solved, and its
`guess_count` equals the `daily_winners` minimum of its own group and local
date.  Personal plays (`group_id` NULL) never satisfy the SQL equi-join on
`group_id`. -/
def isPointEarner (rs : List ResultRow) (r : ResultRow) : Bool :=
  r.solved &&
    match r.group_id with
    | some g => min_guesses rs g r.local_date == some r.guess_count
    | none => false

/-- The `point_earners` CTE: the rows awarded one point each. -/
def point_earners (rs : List ResultRow) : List ResultRow :=
  rs.filter (isPointEarner rs)

/-- The winner set of `(g, d)`: the users of the `point_earners` rows for that
group and local date (the `DayWinnerSet` of the specification). -/
def winners (rs : List ResultRow) (g : Nat) (d : Int) : List Nat :=
  ((point_earners rs).filter fun r => r.group_id == some g && r.local_date == d).map
    fun r => r.user_id

/-- The `earned_scores` CTE joined back with `COALESCE(.., 0)`: `SUM(points)` with
`points = 1` per winning row, i.e. the number of `point_earners` rows of
`(g, u)`; 0 when there are none. -/
def earned_points (rs : List ResultRow) (g u : Nat) : Nat :=
  ((point_earners rs).filter fun r => r.group_id == some g && r.user_id == u).length

/-- The `adjustment_totals` CTE joined back with `COALESCE(.., 0)`:
`SUM(adjustment)` over the adjustments of `(g, u)`; 0 when there are none. -/
def adjustment_points (adjs : List AdjustmentRow) (g u : Nat) : Int :=
  ((adjs.filter fun a => a.group_id == g && a.user_id == u).map
    fun a => a.adjustment).sum

/-- The `all_members` CTE (`current_members` in `fix_leaderboard_view.sql`):
`SELECT DISTINCT group_id, user_id FROM group_members`. -/
def all_members (ms : List MemberRow) : List (Nat × Nat) :=
  (ms.map fun m => (m.group_id, m.user_id)).dedup

/-- One published row of the `leaderboard_scores` view. -/
structure LeaderboardEntry where
  group_id : Nat
  user_id : Nat
  username : String
  total_score : Int
  games_won : Nat
  deriving Repr, DecidableEq

/-- The `leaderboard_scores` materialized view body of
`local_date_scoring.sql`: one entry per current `(group, user)` membership,
`total_score = COALESCE(earned, 0) + COALESCE(adjustments, 0)`,
`games_won = COALESCE(earned, 0)`.  `prof` is the `profiles` join. -/
def leaderboard_scores (db : DB) (prof : Nat → String) : List LeaderboardEntry :=
  (all_members db.group_members).map fun gu =>
    { group_id := gu.1
      user_id := gu.2
      username := prof gu.2
      total_score := (earned_points db.daily_results gu.1 gu.2 : Int) +
        adjustment_points db.score_adjustments gu.1 gu.2
      games_won := earned_points db.daily_results gu.1 gu.2 }

/-- The leaderboard fetch in `Leaderboard.tsx`: the view rows of one group,
ordered by `total_score` descending. -/
def getLeaderboard (db : DB) (prof : Nat → String) (g : Nat) : List LeaderboardEntry :=
  ((leaderboard_scores db prof).filter fun e => e.group_id == g).mergeSort
    fun a b => decide (b.total_score ≤ a.total_score)

/-! ### Result submission (`useGameResults` hook + table constraints)

An INSERT into `daily_results` is checked against the table constraints:
`CHECK (guess_count >= 1 AND guess_count <= 6)` (schema), the
`UNIQUE(user_id, group_id, day_index)` constraint (which, as the personal
plays migration notes, does not constrain rows with NULL `group_id`), and
the partial unique index `(user_id, local_date) WHERE group_id IS NULL`. -/

/-- Insert one row into `daily_results`, enforcing the table's CHECK and
uniqueness constraints; a violated constraint rejects the statement and
leaves the table unchanged. -/
def insertDailyResult (db : DB) (r : ResultRow) : Except String DB :=
  if !(1 ≤ r.guess_count && r.guess_count ≤ 6) then
    .error "guess_count check violation"
  else if r.group_id.isSome &&
      db.daily_results.any fun x =>
        x.user_id == r.user_id && x.group_id == r.group_id &&
          x.day_index == r.day_index then
    .error "duplicate key (user_id, group_id, day_index)"
  else if r.group_id.isNone &&
      db.daily_results.any fun x =>
        x.group_id.isNone && x.user_id == r.user_id &&
          x.local_date == r.local_date then
    .error "duplicate key personal play (user_id, local_date)"
  else
    .ok { db with daily_results := db.daily_results ++ [r] }

/-- The fields of a group the submission path reads: its id and the local day
number and timezone offset of the current membership's `joined_at`. -/
structure GroupInfo where
  id : Nat
  joinedDay : Int
  joinedOff : Int
  deriving Repr, DecidableEq

/-- The app-level duplicate probe of `submitResult`: an existing row with the
same `(user_id, group_id, day_index)`. -/
def hasResultKey (db : DB) (u g : Nat) (di : Int) : Bool :=
  db.daily_results.any fun r =>
    r.user_id == u && r.group_id == some g && r.day_index == di

/-- The duplicate probe of `submitPersonalResult`: an existing personal play
(`group_id` NULL) with the same `(user_id, local_date)`. -/
def hasPersonalResult (db : DB) (u : Nat) (d : Int) : Bool :=
  db.daily_results.any fun r =>
    r.group_id.isNone && r.user_id == u && r.local_date == d

/-- Function `submitPersonalResult`: skip when today's personal play already exists
(idempotent, reported as success), otherwise insert with `group_id` NULL and
`day_index` 0.  Returns the new table state and the success flag. -/
def submitPersonalResult (db : DB) (user : Nat) (now : Instant) (gc : Nat)
    (solved : Bool) : DB × Bool :=
  let localDate := getLocalDate now
  if hasPersonalResult db user localDate then (db, true)
  else
    match insertDailyResult db
      { user_id := user, group_id := none, day_index := 0, guess_count := gc
        solved := solved, submitted_at := now.utcMin, local_date := localDate
        timezone_offset := getTimezoneOffset now } with
    | .ok db' => (db', true)
    | .error _ => (db, false)

/-- The outcome record of `submitResult`. -/
structure SubmitOutcome where
  db : DB
  success : Bool
  submitted : Nat
  errors : List String
  deriving Repr, DecidableEq

/-- One iteration of the `submitResult` loop over the user's groups: compute
`day_index`, skip if a row with the same `(user, group, day_index)` exists,
otherwise insert, counting successes and collecting error messages. -/
def submitStep (user : Nat) (now : Instant) (gc : Nat) (solved : Bool)
    (acc : DB × Nat × List String) (g : GroupInfo) : DB × Nat × List String :=
  let dayIndex := calculateDayIndex g.joinedDay g.joinedOff now
  if hasResultKey acc.1 user g.id dayIndex then acc
  else
    match insertDailyResult acc.1
      { user_id := user, group_id := some g.id, day_index := dayIndex
        guess_count := gc, solved := solved, submitted_at := now.utcMin
        local_date := getLocalDate now
        timezone_offset := getTimezoneOffset now } with
    | .ok db' => (db', acc.2.1 + 1, acc.2.2)
    | .error e => (acc.1, acc.2.1, acc.2.2 ++ [e])

/-- Function `submitResult` from the `useGameResults` hook: with no groups, fall back
to a personal play; otherwise submit once per group. -/
def submitResult (db : DB) (user : Nat) (groups : List GroupInfo)
    (now : Instant) (gc : Nat) (solved : Bool) : SubmitOutcome :=
  if groups.isEmpty then
    let r := submitPersonalResult db user now gc solved
    { db := r.1, success := r.2, submitted := if r.2 then 1 else 0
      errors := if r.2 then [] else ["personal play failed"] }
  else
    let r := groups.foldl (submitStep user now gc solved) (db, 0, [])
    { db := r.1, success := r.2.2.isEmpty, submitted := r.2.1, errors := r.2.2 }

/-- The uniqueness invariant the store's constraints enforce: no two rows
share `(user_id, group_id, day_index)` when `group_id` is non-null, and no
two personal-play rows share `(user_id, local_date)`. -/
def resultsKeyUnique (db : DB) : Prop :=
  db.daily_results.Pairwise fun a b =>
    ¬(a.group_id.isSome = true ∧ a.user_id = b.user_id ∧ a.group_id = b.group_id ∧
        a.day_index = b.day_index) ∧
    ¬(a.group_id = none ∧ b.group_id = none ∧ a.user_id = b.user_id ∧
        a.local_date = b.local_date)

instance (db : DB) : Decidable (resultsKeyUnique db) := by
  rw [resultsKeyUnique]
  infer_instance

/-- Modelled from the spec: the distinct day_keys present in the store that
user `u` won in group `g`. -/
def wonDayKeys (rs : List ResultRow) (g u : Nat) : List Int :=
  ((rs.map fun r => r.local_date).dedup).filter fun d => decide (u ∈ winners rs g d)

/-- Modelled from the spec: `games_won[user] = count of day_keys where
user ∈ winners`. -/
def specGamesWon (rs : List ResultRow) (g u : Nat) : Nat :=
  (wonDayKeys rs g u).length

/-! ### Group reset (`Leaderboard.tsx`, `handleResetScores`) -/

/-- Function `handleResetScores`: delete all `daily_results` rows of the group, then
all `score_adjustments` rows of the group. -/
def resetGroupDB (db : DB) (g : Nat) : DB :=
  { db with
      daily_results := db.daily_results.filter fun r => !(r.group_id == some g)
      score_adjustments := db.score_adjustments.filter fun a => !(a.group_id == g) }

/-! ### Refresh controller (`realtime_scoring` migration)

The materialized view is refreshed by `refresh_leaderboard()`, invoked by
statement-level AFTER triggers: on INSERT and on DELETE of `daily_results`,
and on INSERT OR DELETE of `score_adjustments`.  A mutating statement is one
of the four events below; each fires its trigger exactly once (statement
level), and the refresh recomputes the whole view from the stores. -/

/-- A mutating statement on the stores, as issued by the application: result
insert, per-group result delete, adjustment insert, per-group adjustment
delete. -/
inductive MutEvent where
  | insertResult (r : ResultRow)
  | deleteGroupResults (g : Nat)
  | insertAdjustment (a : AdjustmentRow)
  | deleteGroupAdjustments (g : Nat)
  deriving Repr, DecidableEq

/-- The effect of a mutating statement on the stores. -/
def applyMutation : MutEvent → DB → DB
  | .insertResult r, db =>
      { db with daily_results := db.daily_results ++ [r] }
  | .deleteGroupResults g, db =>
      { db with daily_results := db.daily_results.filter fun r => !(r.group_id == some g) }
  | .insertAdjustment a, db =>
      { db with score_adjustments := db.score_adjustments ++ [a] }
  | .deleteGroupAdjustments g, db =>
      { db with score_adjustments := db.score_adjustments.filter fun a => !(a.group_id == g) }

/-- The materialized view plus the stores it is computed from. -/
structure SysState where
  db : DB
  snapshot : List LeaderboardEntry
  deriving Repr, DecidableEq

/-- Function `refresh_leaderboard()`: recompute the full view from the current
stores and swap it in. -/
def refresh_leaderboard (prof : Nat → String) (s : SysState) : SysState :=
  { s with snapshot := leaderboard_scores s.db prof }

/-- One mutating statement followed by its statement-level AFTER trigger:
apply the mutation, then one refresh.  The second component counts the
refreshes fired (one per statement). -/
def step (prof : Nat → String) (s : SysState) (e : MutEvent) : SysState × Nat :=
  (refresh_leaderboard prof { s with db := applyMutation e s.db }, 1)

/-- Run a sequence of mutating statements in order, accumulating the number
of refreshes fired. -/
def runEvents (prof : Nat → String) (s : SysState) : List MutEvent → SysState × Nat
  | [] => (s, 0)
  | e :: es =>
    let r := runEvents prof (step prof s e).1 es
    (r.1, (step prof s e).2 + r.2)

/-- The two delete statements `handleResetScores` issues for a bulk reset. -/
def resetGroupEvents (g : Nat) : List MutEvent :=
  [MutEvent.deleteGroupResults g, MutEvent.deleteGroupAdjustments g]

/-! ### UTC-12 finalization policy (`utc_scoring.sql`, superseded) -/

/-- One row of `daily_results` as the UTC-12 view reads it (`utc_date` is the
UTC day number). -/
structure UTCRow where
  user_id : Nat
  group_id : Nat
  utc_date : Int
  guess_count : Nat
  solved : Bool
  deriving Repr, DecidableEq

/-- Function `is_day_finalized(check_date)`: `NOW() >= check_date + 1 day + 12 hours`,
in epoch minutes (the UTC midnight of day `d` is minute `d * 1440`, and
36 hours are 2160 minutes). -/
def is_day_finalized (now : Int) (d : Int) : Bool :=
  decide (d * 1440 + 2160 ≤ now)

/-- The `finalized_days` CTE: the rows whose UTC day has been finalized. -/
def finalized_days (now : Int) (rs : List UTCRow) : List UTCRow :=
  rs.filter fun r => is_day_finalized now r.utc_date

/-- The solved rows of `(g, d)` in a UTC-keyed row list. -/
def solvedAtUTC (rs : List UTCRow) (g : Nat) (d : Int) : List UTCRow :=
  rs.filter fun r => r.solved && r.group_id == g && r.utc_date == d

/-- The `daily_winners` CTE of `utc_scoring.sql`, over an already-filtered row
list: `MIN(guess_count)` among solved rows of `(g, d)`. -/
def min_guessesUTC (rs : List UTCRow) (g : Nat) (d : Int) : Option Nat :=
  ((solvedAtUTC rs g d).map fun r => r.guess_count).min?

/-- The `point_earners` CTE of `utc_scoring.sql`: computed over `finalized_days`
only. -/
def point_earnersUTC (now : Int) (rs : List UTCRow) : List UTCRow :=
  let fin := finalized_days now rs
  fin.filter fun r =>
    r.solved && min_guessesUTC fin r.group_id r.utc_date == some r.guess_count

/-- The winner set of `(g, d)` under the UTC-12 view at wall-clock `now`. -/
def winnersUTC (now : Int) (rs : List UTCRow) (g : Nat) (d : Int) : List Nat :=
  ((point_earnersUTC now rs).filter fun r =>
    r.group_id == g && r.utc_date == d).map fun r => r.user_id

/-- Modelled from the spec: the same winner computation run on the raw rows
with no finalization filter — the "full recompute" a finalized day must
agree with. -/
def point_earnersUTCAll (rs : List UTCRow) : List UTCRow :=
  rs.filter fun r =>
    r.solved && min_guessesUTC rs r.group_id r.utc_date == some r.guess_count

/-- Modelled from the spec: winner set of `(g, d)` from the raw rows with no
finalization filter. -/
def winnersUTCAll (rs : List UTCRow) (g : Nat) (d : Int) : List Nat :=
  ((point_earnersUTCAll rs).filter fun r =>
    r.group_id == g && r.utc_date == d).map fun r => r.user_id

/-! ### Day-key policy, spec side -/

/-- Modelled from the spec: `raw_local_date`, "the date as observed in the
submitter's own timezone at submission time" — the day number of the local
wall-clock minute. -/
def rawLocalDate (i : Instant) : Int :=
  (i.utcMin - i.tzOff) / 1440

/-! ### Supporting lemmas -/

/-- Membership in `solvedAt`, unfolded to propositions. -/
lemma mem_solvedAt {rs : List ResultRow} {g : Nat} {d : Int} {r : ResultRow} :
    r ∈ solvedAt rs g d ↔
      r ∈ rs ∧ r.solved = true ∧ r.group_id = some g ∧ r.local_date = d := by
  simp [solvedAt, List.mem_filter, and_assoc]

/-- The `daily_winners` minimum characterized: it is attained by a solved row
of `(g, d)` and bounds every solved row of `(g, d)`. -/
lemma min_guesses_eq_some_iff {rs : List ResultRow} {g : Nat} {d : Int} {m : Nat} :
    min_guesses rs g d = some m ↔
      (∃ r ∈ rs, r.solved = true ∧ r.group_id = some g ∧ r.local_date = d ∧
        r.guess_count = m) ∧
      ∀ r' ∈ rs, r'.solved = true → r'.group_id = some g → r'.local_date = d →
        m ≤ r'.guess_count := by
  rw [min_guesses, List.min?_eq_some_iff']
  constructor
  · rintro ⟨hmem, hmin⟩
    rw [List.mem_map] at hmem
    obtain ⟨r, hr, hrc⟩ := hmem
    rw [mem_solvedAt] at hr
    refine ⟨⟨r, hr.1, hr.2.1, hr.2.2.1, hr.2.2.2, hrc⟩, ?_⟩
    intro r' hr' hs hg hd
    exact hmin _ (List.mem_map_of_mem _ (mem_solvedAt.2 ⟨hr', hs, hg, hd⟩))
  · rintro ⟨⟨r, hr, hs, hg, hd, hrc⟩, hmin⟩
    refine ⟨List.mem_map.2 ⟨r, mem_solvedAt.2 ⟨hr, hs, hg, hd⟩, hrc⟩, ?_⟩
    intro x hx
    rw [List.mem_map] at hx
    obtain ⟨r', hr', hx⟩ := hx
    rw [mem_solvedAt] at hr'
    exact hx ▸ hmin r' hr'.1 hr'.2.1 hr'.2.2.1 hr'.2.2.2

/-- Membership in the winner set, in terms of the stored rows and the
`daily_winners` minimum. -/
lemma mem_winners_iff {rs : List ResultRow} {g : Nat} {d : Int} {u : Nat} :
    u ∈ winners rs g d ↔
      ∃ r ∈ rs, r.solved = true ∧ r.group_id = some g ∧ r.local_date = d ∧
        r.user_id = u ∧ min_guesses rs g d = some r.guess_count := by
  constructor
  · intro hu
    rw [winners, List.mem_map] at hu
    obtain ⟨r, hr, hru⟩ := hu
    rw [List.mem_filter] at hr
    obtain ⟨hpe, hgd⟩ := hr
    rw [point_earners, List.mem_filter] at hpe
    obtain ⟨hmem, hearn⟩ := hpe
    simp only [Bool.and_eq_true, beq_iff_eq] at hgd
    rw [isPointEarner, hgd.1, Bool.and_eq_true, beq_iff_eq] at hearn
    exact ⟨r, hmem, hearn.1, hgd.1, hgd.2, hru, hgd.2 ▸ hearn.2⟩
  · rintro ⟨r, hr, hs, hg, hd, hu, hmin⟩
    rw [winners, List.mem_map]
    refine ⟨r, ?_, hu⟩
    rw [List.mem_filter, point_earners, List.mem_filter]
    constructor
    · refine ⟨hr, ?_⟩
      rw [isPointEarner, hg, hs, Bool.true_and, beq_iff_eq, hd]
      exact hmin
    · simp [hg, hd]

/-- Rows failing the per-group, per-date filter are irrelevant to
`solvedAt`, hence `min_guesses` only depends on rows at `(g, d)`. -/
lemma solvedAt_filter_irrelevant {rs : List ResultRow} {g : Nat} {d : Int}
    {p : ResultRow → Bool}
    (hp : ∀ r ∈ rs, r.solved = true → r.group_id = some g → r.local_date = d →
      p r = true) :
    solvedAt (rs.filter p) g d = solvedAt rs g d := by
  induction rs with
  | nil => rfl
  | cons r rs ih =>
    have ih' := ih fun x hx => hp x (List.mem_cons_of_mem _ hx)
    by_cases hpr : p r = true
    · rw [List.filter_cons_of_pos hpr]
      unfold solvedAt
      rcases hb : (r.solved && r.group_id == some g && r.local_date == d) with _ | _
      · rw [List.filter_cons_of_neg (by simp [hb]), List.filter_cons_of_neg (by simp [hb])]
        exact ih'
      · rw [List.filter_cons_of_pos (by simp_all), List.filter_cons_of_pos (by simp_all)]
        rw [List.cons.injEq]
        exact ⟨rfl, ih'⟩
    · rw [List.filter_cons_of_neg hpr]
      unfold solvedAt
      have hnot : ¬(r.solved && r.group_id == some g && r.local_date == d) = true := by
        intro hb
        simp only [Bool.and_eq_true, beq_iff_eq] at hb
        exact hpr (hp r (List.mem_cons_self _ _) hb.1.1 hb.1.2 hb.2)
      rw [List.filter_cons_of_neg (by simpa using hnot)]
      exact ih'

/-- A point-earner row is solved. -/
lemma isPointEarner_solved {rs : List ResultRow} {r : ResultRow}
    (h : isPointEarner rs r = true) : r.solved = true := by
  rw [isPointEarner, Bool.and_eq_true] at h
  exact h.1

/-- Filtering out rows never relevant to `solvedAt` leaves every
`daily_winners` minimum unchanged; in particular the winner computation over
only the solved rows agrees with the one over all rows. -/
lemma point_earners_filter_solved (rs : List ResultRow) :
    point_earners (rs.filter fun r => r.solved) = point_earners rs := by
  have hmin : ∀ g d, min_guesses (rs.filter fun r => r.solved) g d = min_guesses rs g d := by
    intro g d
    rw [min_guesses, min_guesses, solvedAt_filter_irrelevant]
    intro r _ hs _ _
    exact hs
  have hpe : ∀ r, isPointEarner (rs.filter fun r => r.solved) r = isPointEarner rs r := by
    intro r
    rw [isPointEarner, isPointEarner]
    rcases r.group_id with _ | g
    · rfl
    · simp only [hmin]
  rw [point_earners, point_earners, List.filter_congr fun r _ => hpe r,
    List.filter_filter]
  apply List.filter_congr
  intro r _
  rcases h : isPointEarner rs r with _ | _
  · simp
  · simp [isPointEarner_solved h]

/-- Membership in `all_members`, unfolded. -/
lemma mem_all_members {ms : List MemberRow} {g u : Nat} :
    (g, u) ∈ all_members ms ↔ ∃ m ∈ ms, m.group_id = g ∧ m.user_id = u := by
  simp only [all_members, List.mem_dedup, List.mem_map, Prod.mk.injEq]

/-- The view entry of a current membership `(g, u)`. -/
lemma mem_leaderboard_scores_of_member {db : DB} {prof : Nat → String} {g u : Nat}
    (h : (g, u) ∈ all_members db.group_members) :
    ({ group_id := g, user_id := u, username := prof u
       total_score := (earned_points db.daily_results g u : Int) +
         adjustment_points db.score_adjustments g u
       games_won := earned_points db.daily_results g u } : LeaderboardEntry) ∈
      leaderboard_scores db prof :=
  List.mem_map_of_mem _ h

/-- Every view entry is the computed entry of a current membership. -/
lemma of_mem_leaderboard_scores {db : DB} {prof : Nat → String}
    {e : LeaderboardEntry} (h : e ∈ leaderboard_scores db prof) :
    (e.group_id, e.user_id) ∈ all_members db.group_members ∧
      e.username = prof e.user_id ∧
      e.total_score = (earned_points db.daily_results e.group_id e.user_id : Int) +
        adjustment_points db.score_adjustments e.group_id e.user_id ∧
      e.games_won = earned_points db.daily_results e.group_id e.user_id := by
  rw [leaderboard_scores, List.mem_map] at h
  obtain ⟨gu, hgu, he⟩ := h
  subst he
  exact ⟨hgu, rfl, rfl, rfl⟩

/-- Reading `getLeaderboard` is the view filtered to the group, up to the display
sort (a permutation). -/
lemma mem_getLeaderboard_iff {db : DB} {prof : Nat → String} {g : Nat}
    {e : LeaderboardEntry} :
    e ∈ getLeaderboard db prof g ↔ e ∈ leaderboard_scores db prof ∧ e.group_id = g := by
  rw [getLeaderboard, (List.mergeSort_perm _ _).mem_iff, List.mem_filter,
    beq_iff_eq]

/-- With no stored rows of `(g, u)` the user earns no points. -/
lemma earned_points_eq_zero {rs : List ResultRow} {g u : Nat}
    (h : ∀ r ∈ rs, ¬(r.group_id = some g ∧ r.user_id = u)) :
    earned_points rs g u = 0 := by
  rw [earned_points, List.length_eq_zero, List.filter_eq_nil_iff]
  intro r hr
  rw [point_earners, List.mem_filter] at hr
  intro hb
  simp only [Bool.and_eq_true, beq_iff_eq] at hb
  exact h r hr.1 hb

/-- With no stored adjustments of `(g, u)` the adjustment total is 0. -/
lemma adjustment_points_eq_zero {adjs : List AdjustmentRow} {g u : Nat}
    (h : ∀ a ∈ adjs, ¬(a.group_id = g ∧ a.user_id = u)) :
    adjustment_points adjs g u = 0 := by
  rw [adjustment_points]
  have : adjs.filter (fun a => a.group_id == g && a.user_id == u) = [] := by
    rw [List.filter_eq_nil_iff]
    intro a ha hb
    simp only [Bool.and_eq_true, beq_iff_eq] at hb
    exact h a ha hb
  rw [this]
  rfl

/-- Under per-day uniqueness of the user's rows in the group, the earned
point count equals the number of distinct day_keys the user won. -/
lemma earned_points_eq_specGamesWon {rs : List ResultRow} {g u : Nat}
    (huniq : (rs.filter fun r => r.group_id == some g && r.user_id == u).Pairwise
      fun a b => a.local_date ≠ b.local_date) :
    earned_points rs g u = specGamesWon rs g u := by
  classical
  set L := (point_earners rs).filter fun r => r.group_id == some g && r.user_id == u
    with hL
  have hsub : List.Sublist L (rs.filter fun r => r.group_id == some g && r.user_id == u) := by
    rw [hL, point_earners, List.filter_filter]
    exact List.monotone_filter_right rs fun a hb => by
      rw [Bool.and_eq_true] at hb
      exact hb.1
  have hpw : L.Pairwise fun a b => a.local_date ≠ b.local_date := huniq.sublist hsub
  have hnodupL : (L.map fun r => r.local_date).Nodup := hpw.map _ fun a b h => h
  have hnodupW : (wonDayKeys rs g u).Nodup := by
    rw [wonDayKeys]
    exact (List.nodup_dedup (rs.map fun r => r.local_date)).filter _
  have hmem : ∀ d, d ∈ (L.map fun r => r.local_date) ↔ d ∈ wonDayKeys rs g u := by
    intro d
    constructor
    · rw [List.mem_map]
      rintro ⟨r, hrL, rfl⟩
      rw [hL, List.mem_filter] at hrL
      obtain ⟨hpe, hb⟩ := hrL
      simp only [Bool.and_eq_true, beq_iff_eq] at hb
      have hrrs : r ∈ rs := by
        rw [point_earners, List.mem_filter] at hpe
        exact hpe.1
      rw [wonDayKeys, List.mem_filter]
      refine ⟨List.mem_dedup.2 (List.mem_map_of_mem _ hrrs), ?_⟩
      rw [decide_eq_true_iff]
      rw [winners, List.mem_map]
      exact ⟨r, List.mem_filter.2 ⟨hpe, by simp [hb.1]⟩, hb.2⟩
    · rw [wonDayKeys, List.mem_filter, decide_eq_true_iff]
      rintro ⟨-, hw⟩
      rw [winners, List.mem_map] at hw
      obtain ⟨r, hr, hu'⟩ := hw
      rw [List.mem_filter] at hr
      obtain ⟨hpe, hb⟩ := hr
      simp only [Bool.and_eq_true, beq_iff_eq] at hb
      rw [List.mem_map]
      refine ⟨r, ?_, hb.2⟩
      rw [hL, List.mem_filter]
      exact ⟨hpe, by simp [hb.1, hu']⟩
  have hperm : (L.map fun r => r.local_date).Perm (wonDayKeys rs g u) :=
    (List.perm_ext_iff_of_nodup hnodupL hnodupW).2 hmem
  rw [earned_points, specGamesWon, ← hL, ← hperm.length_eq, List.length_map]


/-- C1: for every group `g` and day_key `d`, the winner set is exactly the
set of users with a solved Result whose guess_count equals the minimum
guess_count among solved Results for `(g, d)` (i.e. is attained and bounds
every solved guess_count there); unsolved Results never win and never affect
the minimum (restricting to solved rows changes nothing); and with no solved
Results for `(g, d)` the winner set is empty. -/
theorem claim_C1_winner_set (rs : List ResultRow) (g : Nat) (d : Int) :
    (∀ u, u ∈ winners rs g d ↔
      ∃ r ∈ rs, r.user_id = u ∧ r.group_id = some g ∧ r.local_date = d ∧
        r.solved = true ∧
        ∀ r' ∈ rs, r'.solved = true → r'.group_id = some g → r'.local_date = d →
          r.guess_count ≤ r'.guess_count) ∧
    winners (rs.filter fun r => r.solved) g d = winners rs g d ∧
    ((∀ r ∈ rs, r.group_id = some g → r.local_date = d → r.solved = false) →
      winners rs g d = []) := by
  refine ⟨?_, ?_, ?_⟩
  · intro u
    rw [mem_winners_iff]
    constructor
    · rintro ⟨r, hr, hs, hg, hd, hu, hmin⟩
      obtain ⟨-, hbound⟩ := min_guesses_eq_some_iff.1 hmin
      exact ⟨r, hr, hu, hg, hd, hs, hbound⟩
    · rintro ⟨r, hr, hu, hg, hd, hs, hbound⟩
      refine ⟨r, hr, hs, hg, hd, hu, ?_⟩
      exact min_guesses_eq_some_iff.2 ⟨⟨r, hr, hs, hg, hd, rfl⟩, hbound⟩
  · rw [winners, winners, point_earners_filter_solved]
  · intro hno
    rw [winners, List.map_eq_nil_iff, List.filter_eq_nil_iff]
    intro r hr
    rw [point_earners, List.mem_filter] at hr
    intro hgd
    simp only [Bool.and_eq_true, beq_iff_eq] at hgd
    have := hno r hr.1 hgd.1 hgd.2
    rw [isPointEarner_solved hr.2] at this
    exact Bool.noConfusion this

/-- Witness for C1 at a concrete input: a lone unsolved row yields an empty
winner set. -/
theorem claim_C1_winner_set_witness :
    winners [⟨1, some 0, 0, 3, false, 0, 10, 0⟩] 0 10 = [] :=
  (claim_C1_winner_set [⟨1, some 0, 0, 3, false, 0, 10, 0⟩] 0 10).2.2 (by decide)

/-- C2: every current member `(g, u)` has a published entry with
`total_score = games_won + adjustment total`, where `games_won` counts (under
the per-day uniqueness invariant on the member's rows) exactly the day_keys
the member won; and a current member with no Results and no Adjustments
still appears with `games_won = 0` and `total_score = 0`. -/
theorem claim_C2_leaderboard_totals (db : DB) (prof : Nat → String) (g u : Nat)
    (hm : (g, u) ∈ all_members db.group_members) :
    (∃ e ∈ getLeaderboard db prof g, e.user_id = u ∧
      e.total_score = (e.games_won : Int) + adjustment_points db.score_adjustments g u ∧
      ((db.daily_results.filter fun r => r.group_id == some g && r.user_id == u).Pairwise
          (fun a b => a.local_date ≠ b.local_date) →
        e.games_won = specGamesWon db.daily_results g u)) ∧
    ((∀ r ∈ db.daily_results, ¬(r.group_id = some g ∧ r.user_id = u)) →
      (∀ a ∈ db.score_adjustments, ¬(a.group_id = g ∧ a.user_id = u)) →
      ({ group_id := g, user_id := u, username := prof u, total_score := 0
         games_won := 0 } : LeaderboardEntry) ∈ getLeaderboard db prof g) := by
  constructor
  · refine ⟨⟨g, u, prof u,
        (earned_points db.daily_results g u : Int) +
          adjustment_points db.score_adjustments g u,
        earned_points db.daily_results g u⟩, ?_, rfl, rfl, ?_⟩
    · exact mem_getLeaderboard_iff.2 ⟨mem_leaderboard_scores_of_member hm, rfl⟩
    · intro huniq
      exact earned_points_eq_specGamesWon huniq
  · intro hnr hna
    have he : earned_points db.daily_results g u = 0 := earned_points_eq_zero hnr
    have ha : adjustment_points db.score_adjustments g u = 0 :=
      adjustment_points_eq_zero hna
    have := @mem_leaderboard_scores_of_member db prof g u hm
    rw [he, ha] at this
    exact mem_getLeaderboard_iff.2 ⟨this, rfl⟩

/-- Witness for C2 at a concrete input: in a two-member group where only
user 1 has a (winning) row, user 2 still appears with a zero entry, and user
1's entry satisfies the score equation with `games_won` counting its one won
day. -/
theorem claim_C2_leaderboard_totals_witness :
    (∃ e ∈ getLeaderboard
        ⟨[⟨1, some 0, 0, 3, true, 0, 10, 0⟩], [], [⟨1, 0, true⟩, ⟨2, 0, false⟩]⟩
        (fun _ => "x") 0, e.user_id = 1 ∧
      e.total_score = (e.games_won : Int) + 0 ∧
      e.games_won = specGamesWon [⟨1, some 0, 0, 3, true, 0, 10, 0⟩] 0 1) ∧
    ({ group_id := 0, user_id := 2, username := "x", total_score := 0
       games_won := 0 } : LeaderboardEntry) ∈ getLeaderboard
        ⟨[⟨1, some 0, 0, 3, true, 0, 10, 0⟩], [], [⟨1, 0, true⟩, ⟨2, 0, false⟩]⟩
        (fun _ => "x") 0 := by
  have h1 := claim_C2_leaderboard_totals
    ⟨[⟨1, some 0, 0, 3, true, 0, 10, 0⟩], [], [⟨1, 0, true⟩, ⟨2, 0, false⟩]⟩
    (fun _ => "x") 0 1 (by decide)
  have h2 := claim_C2_leaderboard_totals
    ⟨[⟨1, some 0, 0, 3, true, 0, 10, 0⟩], [], [⟨1, 0, true⟩, ⟨2, 0, false⟩]⟩
    (fun _ => "x") 0 2 (by decide)
  refine ⟨?_, h2.2 (by decide) (by decide)⟩
  obtain ⟨e, hmem, hu, htot, hgames⟩ := h1.1
  exact ⟨e, hmem, hu, htot, hgames (by decide)⟩

/-- C3: every entry of `getLeaderboard g` belongs to a current member of `g`;
a user who is not a current member is never listed (even when historical
Results or Adjustments rows for them persist in the stores, which the
statement leaves arbitrary); and restoring the membership of `u` makes an
entry for `u` reappear, scored from the historical rows still in the
stores. -/
theorem claim_C3_current_members_only (db : DB) (prof : Nat → String) (g u : Nat) :
    (∀ e ∈ getLeaderboard db prof g, (g, e.user_id) ∈ all_members db.group_members) ∧
    ((g, u) ∉ all_members db.group_members →
      ∀ e ∈ getLeaderboard db prof g, e.user_id ≠ u) ∧
    (∀ adm : Bool, ∃ e ∈ getLeaderboard
        { db with group_members := db.group_members ++ [⟨u, g, adm⟩] } prof g,
      e.user_id = u ∧
      e.games_won = earned_points db.daily_results g u ∧
      e.total_score = (earned_points db.daily_results g u : Int) +
        adjustment_points db.score_adjustments g u) := by
  have hmem : ∀ e ∈ getLeaderboard db prof g, (g, e.user_id) ∈ all_members db.group_members := by
    intro e he
    obtain ⟨hv, hg⟩ := mem_getLeaderboard_iff.1 he
    have := (of_mem_leaderboard_scores hv).1
    rwa [hg] at this
  refine ⟨hmem, ?_, ?_⟩
  · intro hnot e he hu
    exact hnot (hu ▸ hmem e he)
  · intro adm
    have hm : (g, u) ∈ all_members (db.group_members ++ [⟨u, g, adm⟩]) := by
      rw [mem_all_members]
      exact ⟨⟨u, g, adm⟩, List.mem_append_right _ (List.mem_singleton.2 rfl), rfl, rfl⟩
    refine ⟨⟨g, u, prof u,
        (earned_points db.daily_results g u : Int) +
          adjustment_points db.score_adjustments g u,
        earned_points db.daily_results g u⟩, ?_, rfl, rfl, rfl⟩
    exact mem_getLeaderboard_iff.2
      ⟨@mem_leaderboard_scores_of_member
        { db with group_members := db.group_members ++ [⟨u, g, adm⟩] } prof g u hm,
        rfl⟩

/-- Witness for C3 at a concrete input: user 5 has a stored winning row and
an adjustment but no membership, so no entry lists user 5; after rejoining,
user 5's entry reappears with the historical row and adjustment counted. -/
theorem claim_C3_current_members_only_witness :
    (∀ e ∈ getLeaderboard
        ⟨[⟨5, some 0, 0, 3, true, 0, 10, 0⟩], [⟨5, 0, 2, 1⟩], [⟨1, 0, true⟩]⟩
        (fun _ => "x") 0, e.user_id ≠ 5) ∧
    (∃ e ∈ getLeaderboard
        ⟨[⟨5, some 0, 0, 3, true, 0, 10, 0⟩], [⟨5, 0, 2, 1⟩],
          [⟨1, 0, true⟩] ++ [⟨5, 0, false⟩]⟩ (fun _ => "x") 0,
      e.user_id = 5 ∧
      e.games_won = earned_points [⟨5, some 0, 0, 3, true, 0, 10, 0⟩] 0 5 ∧
      e.total_score = (earned_points [⟨5, some 0, 0, 3, true, 0, 10, 0⟩] 0 5 : Int) +
        adjustment_points [⟨5, 0, 2, 1⟩] 0 5) := by
  have h := claim_C3_current_members_only
    ⟨[⟨5, some 0, 0, 3, true, 0, 10, 0⟩], [⟨5, 0, 2, 1⟩], [⟨1, 0, true⟩]⟩
    (fun _ => "x") 0 5
  exact ⟨h.2.1 (by decide), h.2.2 false⟩

/-- After a reset, no stored row or adjustment of group `g` remains, so every
member of `g` scores zero. -/
lemma reset_entry_zero {db : DB} {prof : Nat → String} {g : Nat} :
    ∀ e ∈ leaderboard_scores (resetGroupDB db g) prof, e.group_id = g →
      e.total_score = 0 ∧ e.games_won = 0 := by
  intro e he hg
  obtain ⟨-, -, htot, hwon⟩ := of_mem_leaderboard_scores he
  have hearn : earned_points (resetGroupDB db g).daily_results e.group_id e.user_id = 0 := by
    apply earned_points_eq_zero
    intro r hr hcontra
    rw [resetGroupDB] at hr
    simp only [List.mem_filter, Bool.not_eq_true'] at hr
    rw [hg] at hcontra
    rw [hcontra.1] at hr
    simp at hr
  have hadj : adjustment_points (resetGroupDB db g).score_adjustments e.group_id e.user_id = 0 := by
    apply adjustment_points_eq_zero
    intro a ha hcontra
    rw [resetGroupDB] at ha
    simp only [List.mem_filter, Bool.not_eq_true'] at ha
    rw [hg] at hcontra
    rw [hcontra.1] at ha
    simp at ha
  rw [htot, hwon, hearn, hadj]
  exact ⟨rfl, rfl⟩

/-- C6: after `resetGroup(G)` (all Results and Adjustments of the group
deleted), `getLeaderboard(G)` lists exactly the current members of `G`, each
with `total_score = 0` and `games_won = 0`. -/
theorem claim_C6_reset_zero (db : DB) (prof : Nat → String) (g u : Nat) :
    (∀ e ∈ getLeaderboard (resetGroupDB db g) prof g,
      e.total_score = 0 ∧ e.games_won = 0) ∧
    ((g, u) ∈ all_members db.group_members →
      ({ group_id := g, user_id := u, username := prof u, total_score := 0
         games_won := 0 } : LeaderboardEntry) ∈ getLeaderboard (resetGroupDB db g) prof g) ∧
    (∀ e ∈ getLeaderboard (resetGroupDB db g) prof g,
      (g, e.user_id) ∈ all_members db.group_members) := by
  refine ⟨?_, ?_, ?_⟩
  · intro e he
    obtain ⟨hv, hg⟩ := mem_getLeaderboard_iff.1 he
    exact reset_entry_zero e hv hg
  · intro hm
    have hm' : (g, u) ∈ all_members (resetGroupDB db g).group_members := hm
    have hmem := @mem_leaderboard_scores_of_member (resetGroupDB db g) prof g u hm'
    have hz := reset_entry_zero _ hmem rfl
    have he : (⟨g, u, prof u,
        (earned_points (resetGroupDB db g).daily_results g u : Int) +
          adjustment_points (resetGroupDB db g).score_adjustments g u,
        earned_points (resetGroupDB db g).daily_results g u⟩ : LeaderboardEntry) =
        (⟨g, u, prof u, 0, 0⟩ : LeaderboardEntry) := by
      have h1 := hz.1
      have h2 := hz.2
      simp only at h1 h2
      rw [LeaderboardEntry.mk.injEq]
      exact ⟨rfl, rfl, rfl, h1, h2⟩
    rw [he] at hmem
    exact mem_getLeaderboard_iff.2 ⟨hmem, rfl⟩
  · intro e he
    obtain ⟨hv, hg⟩ := mem_getLeaderboard_iff.1 he
    have := (of_mem_leaderboard_scores hv).1
    rwa [hg] at this

/-- A successful insert appends exactly the given row. -/
lemma insertDailyResult_ok {db db' : DB} {r : ResultRow}
    (h : insertDailyResult db r = .ok db') :
    db' = { db with daily_results := db.daily_results ++ [r] } := by
  rw [insertDailyResult] at h
  split at h
  · cases h
  · split at h
    · cases h
    · split at h
      · cases h
      · cases h
        rfl

/-- Every row the `submitResult` group loop appends carries the local date of
the submission instant; the pre-existing rows are untouched. -/
lemma submit_fold_appends (user : Nat) (now : Instant) (gc : Nat) (solved : Bool) :
    ∀ (groups : List GroupInfo) (db : DB) (n : Nat) (errs : List String),
      ∃ l, (groups.foldl (submitStep user now gc solved) (db, n, errs)).1.daily_results
          = db.daily_results ++ l ∧
        ∀ r ∈ l, r.local_date = getLocalDate now := by
  intro groups
  induction groups with
  | nil =>
    intro db n errs
    exact ⟨[], (List.append_nil _).symm, by intro r hr; cases hr⟩
  | cons gi gs ih =>
    intro db n errs
    rw [List.foldl_cons]
    rw [submitStep]
    split
    · exact ih db n errs
    · rcases hins : insertDailyResult db
        { user_id := user, group_id := some gi.id
          day_index := calculateDayIndex gi.joinedDay gi.joinedOff now
          guess_count := gc, solved := solved, submitted_at := now.utcMin
          local_date := getLocalDate now
          timezone_offset := getTimezoneOffset now } with db' | db'
      · dsimp only
        exact ih db n (errs ++ [db'])
      · dsimp only
        obtain ⟨l, hl, hloc⟩ := ih db' (n + 1) errs
        have hdb' := insertDailyResult_ok hins
        refine ⟨(⟨user, some gi.id, calculateDayIndex gi.joinedDay gi.joinedOff now,
          gc, solved, now.utcMin, getLocalDate now, getTimezoneOffset now⟩ :
            ResultRow) :: l, ?_, ?_⟩
        · rw [hl, hdb']
          simp
        · intro r hr
          rcases List.mem_cons.1 hr with hr | hr
          · rw [hr]
          · exact hloc r hr

/-- Function `submitResult` only appends rows, and every appended row stores the
submitter's local date. -/
lemma submitResult_rows (db : DB) (user : Nat) (groups : List GroupInfo)
    (now : Instant) (gc : Nat) (solved : Bool) :
    ∃ l, (submitResult db user groups now gc solved).db.daily_results
        = db.daily_results ++ l ∧
      ∀ r ∈ l, r.local_date = getLocalDate now := by
  rw [submitResult]
  split
  · rw [submitPersonalResult]
    split
    · exact ⟨[], (List.append_nil _).symm, by intro r hr; cases hr⟩
    · rcases hins : insertDailyResult db
        { user_id := user, group_id := none, day_index := 0, guess_count := gc
          solved := solved, submitted_at := now.utcMin
          local_date := getLocalDate now
          timezone_offset := getTimezoneOffset now } with db' | db'
      · dsimp only
        exact ⟨[], (List.append_nil _).symm, by intro r hr; cases hr⟩
      · dsimp only
        rw [insertDailyResult_ok hins]
        refine ⟨[(⟨user, none, 0, gc, solved, now.utcMin, getLocalDate now,
          getTimezoneOffset now⟩ : ResultRow)], rfl, ?_⟩
        intro r hr
        rw [List.mem_singleton.1 hr]

  · exact submit_fold_appends user now gc solved groups db 0 []

/-- The winner computation reads only stored per-row fields; rewriting
`submitted_at` and `timezone_offset` arbitrarily on every row changes no
winner set. -/
lemma winners_stored_fields_only (rs : List ResultRow) (f h : ResultRow → Int)
    (g : Nat) (d : Int) :
    winners (rs.map fun r =>
        { r with submitted_at := f r, timezone_offset := h r }) g d
      = winners rs g d := by
  set φ : ResultRow → ResultRow := fun r =>
    { r with submitted_at := f r, timezone_offset := h r } with hφ
  have hsolved : ∀ (g' : Nat) (d' : Int),
      solvedAt (rs.map φ) g' d' = (solvedAt rs g' d').map φ := by
    intro g' d'
    rw [solvedAt, solvedAt, List.filter_map]
    rfl
  have hmin : ∀ (g' : Nat) (d' : Int),
      min_guesses (rs.map φ) g' d' = min_guesses rs g' d' := by
    intro g' d'
    rw [min_guesses, min_guesses, hsolved, List.map_map]
    rfl
  have hpe : point_earners (rs.map φ) = (point_earners rs).map φ := by
    rw [point_earners, point_earners, List.filter_map]
    congr 1
    apply List.filter_congr
    intro r _
    show isPointEarner (rs.map φ) (φ r) = isPointEarner rs r
    rw [isPointEarner, isPointEarner]
    show (r.solved && _) = (r.solved && _)
    rcases r.group_id with _ | g'
    · rfl
    · show (r.solved && (min_guesses (rs.map φ) g' r.local_date == some r.guess_count))
        = (r.solved && (min_guesses rs g' r.local_date == some r.guess_count))
      rw [hmin]
  rw [winners, winners, hpe, List.filter_map, List.map_map]
  rfl

/-- C4: under the adopted local-date policy, every Result row a submission
stores carries `local_date` equal to the calendar date observed in the
submitter's own timezone at the moment of submission (`rawLocalDate`), and
the winner grouping reads only the stored per-row value — rewriting the
rows' `submitted_at` (and `timezone_offset`) leaves every winner set
unchanged. -/
theorem claim_C4_local_day_key (db : DB) (user : Nat) (groups : List GroupInfo)
    (now : Instant) (gc : Nat) (solved : Bool) :
    (∀ r, r ∈ (submitResult db user groups now gc solved).db.daily_results →
      r ∈ db.daily_results ∨ r.local_date = rawLocalDate now) ∧
    (∀ (rs : List ResultRow) (f h : ResultRow → Int) (g : Nat) (d : Int),
      winners (rs.map fun r =>
          { r with submitted_at := f r, timezone_offset := h r }) g d
        = winners rs g d) := by
  constructor
  · intro r hr
    obtain ⟨l, hl, hloc⟩ := submitResult_rows db user groups now gc solved
    rw [hl] at hr
    rcases List.mem_append.1 hr with hr | hr
    · exact Or.inl hr
    · exact Or.inr (hloc r hr)
  · intro rs f h g d
    exact winners_stored_fields_only rs f h g d

set_option maxHeartbeats 1600000 in
/-- Witness for C4 at a concrete input: the row stored by a submission at
UTC minute 15000 with timezone offset 600 carries local date 10, and a
concrete rewrite of `submitted_at`/`timezone_offset` leaves a winner set
unchanged. -/
theorem claim_C4_local_day_key_witness :
    ((⟨1, some 0, 5, 3, true, 15000, 10, 600⟩ : ResultRow) ∈
        (⟨[], [], []⟩ : DB).daily_results ∨
      (⟨1, some 0, 5, 3, true, 15000, 10, 600⟩ : ResultRow).local_date
        = rawLocalDate ⟨15000, 600⟩) ∧
    winners (([(⟨1, some 0, 0, 3, true, 0, 10, 0⟩ : ResultRow)]).map fun r =>
        { r with submitted_at := 999, timezone_offset := -480 }) 0 10
      = winners [(⟨1, some 0, 0, 3, true, 0, 10, 0⟩ : ResultRow)] 0 10 := by
  have h := claim_C4_local_day_key (⟨[], [], []⟩ : DB) 1 [(⟨0, 5, 0⟩ : GroupInfo)]
    (⟨15000, 600⟩ : Instant) 3 true
  exact ⟨h.1 _ (by decide), h.2 [(⟨1, some 0, 0, 3, true, 0, 10, 0⟩ : ResultRow)]
    (fun _ => 999) (fun _ => -480) 0 10⟩

/-- Witness for C6 at a concrete input: resetting a group with a winning row
and an adjustment leaves both members listed with zero scores. -/
theorem claim_C6_reset_zero_witness :
    (∀ e ∈ getLeaderboard
        (resetGroupDB ⟨[⟨1, some 0, 0, 3, true, 0, 10, 0⟩], [⟨2, 0, 4, 1⟩],
          [⟨1, 0, true⟩, ⟨2, 0, false⟩]⟩ 0) (fun _ => "x") 0,
      e.total_score = 0 ∧ e.games_won = 0) ∧
    ({ group_id := 0, user_id := 2, username := "x", total_score := 0
       games_won := 0 } : LeaderboardEntry) ∈ getLeaderboard
        (resetGroupDB ⟨[⟨1, some 0, 0, 3, true, 0, 10, 0⟩], [⟨2, 0, 4, 1⟩],
          [⟨1, 0, true⟩, ⟨2, 0, false⟩]⟩ 0) (fun _ => "x") 0 := by
  have h := claim_C6_reset_zero
    ⟨[⟨1, some 0, 0, 3, true, 0, 10, 0⟩], [⟨2, 0, 4, 1⟩],
      [⟨1, 0, true⟩, ⟨2, 0, false⟩]⟩ (fun _ => "x") 0 2
  exact ⟨h.1, h.2.1 (by decide)⟩

/-- A successful insert passed the uniqueness guards: no existing row shares
the group key (when the new row has a group) or the personal key (when it
does not). -/
lemma insertDailyResult_ok_new_key {db db' : DB} {r : ResultRow}
    (h : insertDailyResult db r = .ok db') :
    (∀ x ∈ db.daily_results,
      ¬(r.group_id.isSome = true ∧ x.user_id = r.user_id ∧
        x.group_id = r.group_id ∧ x.day_index = r.day_index)) ∧
    (∀ x ∈ db.daily_results,
      ¬(r.group_id = none ∧ x.group_id = none ∧ x.user_id = r.user_id ∧
        x.local_date = r.local_date)) := by
  rw [insertDailyResult] at h
  split at h
  · cases h
  · rename_i h2
    split at h
    · cases h
    · rename_i h3
      split at h
      · cases h
      · rename_i h4
        constructor
        · intro x hx hcon
          apply h3
          rw [Bool.and_eq_true]
          refine ⟨hcon.1, ?_⟩
          rw [List.any_eq_true]
          refine ⟨x, hx, ?_⟩
          simp [hcon.2.1, hcon.2.2.1, hcon.2.2.2]
        · intro x hx hcon
          apply h4
          rw [Bool.and_eq_true]
          refine ⟨by rw [hcon.1]; rfl, ?_⟩
          rw [List.any_eq_true]
          refine ⟨x, hx, ?_⟩
          simp [hcon.2.1, hcon.2.2.1, hcon.2.2.2, Option.isNone_iff_eq_none]

/-- A successful insert preserves the store's uniqueness invariant. -/
lemma resultsKeyUnique_insert {db db' : DB} {r : ResultRow}
    (h : insertDailyResult db r = .ok db') (hu : resultsKeyUnique db) :
    resultsKeyUnique db' := by
  obtain ⟨hg, hp⟩ := insertDailyResult_ok_new_key h
  rw [insertDailyResult_ok h, resultsKeyUnique]
  rw [resultsKeyUnique] at hu
  show (db.daily_results ++ [r]).Pairwise _
  rw [List.pairwise_append]
  refine ⟨hu, List.pairwise_singleton _ _, ?_⟩
  intro a ha b hb
  rw [List.mem_singleton] at hb
  subst hb
  constructor
  · rintro ⟨hsome, huser, hgroup, hday⟩
    exact hg a ha ⟨by rw [← hgroup]; exact hsome, huser, hgroup, hday⟩
  · rintro ⟨hanone, hrnone, huser, hdate⟩
    exact hp a ha ⟨hrnone, hanone, huser, hdate⟩

/-- The group-submission loop preserves the uniqueness invariant. -/
lemma submit_fold_preserves_unique (user : Nat) (now : Instant) (gc : Nat)
    (solved : Bool) :
    ∀ (groups : List GroupInfo) (db : DB) (n : Nat) (errs : List String),
      resultsKeyUnique db →
      resultsKeyUnique (groups.foldl (submitStep user now gc solved) (db, n, errs)).1 := by
  intro groups
  induction groups with
  | nil =>
    intro db n errs hu
    exact hu
  | cons gi gs ih =>
    intro db n errs hu
    rw [List.foldl_cons, submitStep]
    split
    · exact ih db n errs hu
    · rcases hins : insertDailyResult db
        { user_id := user, group_id := some gi.id
          day_index := calculateDayIndex gi.joinedDay gi.joinedOff now
          guess_count := gc, solved := solved, submitted_at := now.utcMin
          local_date := getLocalDate now
          timezone_offset := getTimezoneOffset now } with db' | db'
      · dsimp only
        exact ih db n (errs ++ [db']) hu
      · dsimp only
        exact ih db' (n + 1) errs (resultsKeyUnique_insert hins hu)

/-- Counterexample to C5 as stated: starting from an empty store, the same
user submits twice for the same group on the same local date — the second
time after rejoining the group that day, so `calculateDayIndex` yields 0
instead of 5.  The duplicate guard and the unique constraint compare
`day_index`, not the day_key, so a second Result with the same
`(user_id, group_id, local_date)` is stored. -/
theorem claim_C5_counterexample :
    ((submitResult (submitResult (⟨[], [], []⟩ : DB) 1 [(⟨0, 95, 0⟩ : GroupInfo)]
          (⟨144000, 0⟩ : Instant) 3 true).db 1 [(⟨0, 100, 0⟩ : GroupInfo)]
          (⟨144000, 0⟩ : Instant) 3 true).db.daily_results.filter fun r =>
      r.user_id == 1 && r.group_id == some 0 && r.local_date == 100).length = 2 := by
  decide

/-- C5 (amended): the store keeps at most one Result per
`(user_id, group_id, day_index)` for group plays and at most one per
`(user_id, local_date)` for personal plays — `submitResult` preserves this
invariant; a resubmission for the same `(user, group, day_index)` is an
idempotent no-op that stores no second Result and leaves the store
unchanged, and a repeated personal play for the same `(user, local_date)`
likewise leaves the store unchanged and reports success. -/
theorem claim_C5_day_index_uniqueness (db : DB) (user : Nat)
    (groups : List GroupInfo) (now : Instant) (gc : Nat) (solved : Bool) :
    (resultsKeyUnique db →
      resultsKeyUnique (submitResult db user groups now gc solved).db) ∧
    (∀ gi : GroupInfo,
      hasResultKey db user gi.id (calculateDayIndex gi.joinedDay gi.joinedOff now)
        = true →
      submitResult db user [gi] now gc solved
        = { db := db, success := true, submitted := 0, errors := [] }) ∧
    (hasPersonalResult db user (getLocalDate now) = true →
      submitResult db user [] now gc solved
        = { db := db, success := true, submitted := 1, errors := [] }) := by
  refine ⟨?_, ?_, ?_⟩
  · intro hu
    rw [submitResult]
    split
    · rw [submitPersonalResult]
      split
      · exact hu
      · rcases hins : insertDailyResult db
          { user_id := user, group_id := none, day_index := 0, guess_count := gc
            solved := solved, submitted_at := now.utcMin
            local_date := getLocalDate now
            timezone_offset := getTimezoneOffset now } with db' | db'
        · exact hu
        · exact resultsKeyUnique_insert hins hu
    · exact submit_fold_preserves_unique user now gc solved groups db 0 [] hu
  · intro gi hkey
    simp [submitResult, submitStep, hkey]
  · intro hper
    simp [submitResult, submitPersonalResult, hper]

/-- Witness for the amended C5 at a concrete input: with one stored row for
`(user 1, group 0, day_index 5)`, resubmitting for the same day index is a
no-op reported as success, and the invariant is preserved by a fresh
submission. -/
theorem claim_C5_day_index_uniqueness_witness :
    resultsKeyUnique (submitResult
      (⟨[⟨1, some 0, 5, 3, true, 0, 100, 0⟩], [], []⟩ : DB) 1
      [(⟨0, 95, 0⟩ : GroupInfo)] (⟨145000, 0⟩ : Instant) 4 true).db ∧
    submitResult (⟨[⟨1, some 0, 5, 3, true, 0, 100, 0⟩], [], []⟩ : DB) 1
        [(⟨0, 95, 0⟩ : GroupInfo)] (⟨144000, 0⟩ : Instant) 4 true
      = { db := ⟨[⟨1, some 0, 5, 3, true, 0, 100, 0⟩], [], []⟩, success := true
          submitted := 0, errors := [] } := by
  have h1 := claim_C5_day_index_uniqueness
    (⟨[⟨1, some 0, 5, 3, true, 0, 100, 0⟩], [], []⟩ : DB) 1
    [(⟨0, 95, 0⟩ : GroupInfo)] (⟨145000, 0⟩ : Instant) 4 true
  have h2 := claim_C5_day_index_uniqueness
    (⟨[⟨1, some 0, 5, 3, true, 0, 100, 0⟩], [], []⟩ : DB) 1
    [(⟨0, 95, 0⟩ : GroupInfo)] (⟨144000, 0⟩ : Instant) 4 true
  exact ⟨h1.1 (by decide), h2.2.1 ⟨0, 95, 0⟩ (by decide)⟩

/-- Counterexample to C7 as stated: a bulk reset issues two delete
statements (`daily_results`, then `score_adjustments`), and each fires the
statement-level refresh trigger once — two refreshes, not exactly one. -/
theorem claim_C7_counterexample :
    (runEvents (fun _ => "") ⟨⟨[], [⟨1, 0, 2, 1⟩], [⟨1, 0, true⟩]⟩, []⟩
      (resetGroupEvents 0)).2 ≠ 1 := by
  decide

/-- C7 (amended): a bulk group reset triggers two snapshot refreshes, one
per delete statement; the final refresh recomputes the snapshot from the
fully reset stores, so after the reset completes readers see the empty
state (every entry of the reset group scores zero), never a stale pre-reset
snapshot. -/
theorem claim_C7_reset_refreshes (prof : Nat → String) (s : SysState) (g : Nat) :
    (runEvents prof s (resetGroupEvents g)).2 = 2 ∧
    (runEvents prof s (resetGroupEvents g)).1.db = resetGroupDB s.db g ∧
    (runEvents prof s (resetGroupEvents g)).1.snapshot
      = leaderboard_scores (resetGroupDB s.db g) prof ∧
    (∀ e ∈ (runEvents prof s (resetGroupEvents g)).1.snapshot, e.group_id = g →
      e.total_score = 0 ∧ e.games_won = 0) := by
  refine ⟨rfl, rfl, rfl, ?_⟩
  intro e he hg
  exact @reset_entry_zero s.db prof g e he hg

/-- Witness for the amended C7 at a concrete input: the reset fires two
refreshes and the surviving member's snapshot entry is zeroed. -/
theorem claim_C7_reset_refreshes_witness :
    (runEvents (fun _ => "") ⟨⟨[⟨1, some 0, 0, 3, true, 0, 10, 0⟩],
        [⟨1, 0, 2, 1⟩], [⟨1, 0, true⟩]⟩, []⟩ (resetGroupEvents 0)).2 = 2 ∧
    ((⟨0, 1, "", 0, 0⟩ : LeaderboardEntry).total_score = 0 ∧
      (⟨0, 1, "", 0, 0⟩ : LeaderboardEntry).games_won = 0) := by
  have h := claim_C7_reset_refreshes (fun _ => "")
    ⟨⟨[⟨1, some 0, 0, 3, true, 0, 10, 0⟩], [⟨1, 0, 2, 1⟩], [⟨1, 0, true⟩]⟩, []⟩ 0
  exact ⟨h.1, h.2.2.2 ⟨0, 1, "", 0, 0⟩ (by decide) rfl⟩

/-- C8: under the cached refresh mode, every mutating statement (result
insert or delete, adjustment insert or delete) fires exactly one refresh —
the refresh count equals the number of statements, no missed triggers — and
after any non-empty sequence of mutating statements the published snapshot
equals the full deterministic recompute of the current stores (no
incremental state). -/
theorem claim_C8_refresh_every_event (prof : Nat → String) (s : SysState)
    (es : List MutEvent) :
    (runEvents prof s es).2 = es.length ∧
    (es ≠ [] → (runEvents prof s es).1.snapshot
      = leaderboard_scores (runEvents prof s es).1.db prof) := by
  induction es generalizing s with
  | nil => exact ⟨rfl, fun h => absurd rfl h⟩
  | cons e es ih =>
    constructor
    · show 1 + (runEvents prof (step prof s e).1 es).2 = es.length + 1
      rw [(ih (step prof s e).1).1, Nat.add_comm]
    · intro h
      rcases es with _ | ⟨e2, es⟩
      · rfl
      · exact (ih (step prof s e).1).2 (by simp)

/-- Witness for C8 at a concrete input: one adjustment insert fires one
refresh and leaves the snapshot equal to the recompute of the new stores. -/
theorem claim_C8_refresh_every_event_witness :
    (runEvents (fun _ => "") ⟨⟨[], [], [⟨1, 0, true⟩]⟩, []⟩
      [MutEvent.insertAdjustment ⟨1, 0, 2, 1⟩]).2
      = [MutEvent.insertAdjustment (⟨1, 0, 2, 1⟩ : AdjustmentRow)].length ∧
    (runEvents (fun _ => "") ⟨⟨[], [], [⟨1, 0, true⟩]⟩, []⟩
        [MutEvent.insertAdjustment ⟨1, 0, 2, 1⟩]).1.snapshot
      = leaderboard_scores (runEvents (fun _ => "") ⟨⟨[], [], [⟨1, 0, true⟩]⟩, []⟩
          [MutEvent.insertAdjustment ⟨1, 0, 2, 1⟩]).1.db (fun _ => "") := by
  have h := claim_C8_refresh_every_event (fun _ => "")
    ⟨⟨[], [], [⟨1, 0, true⟩]⟩, []⟩ [MutEvent.insertAdjustment ⟨1, 0, 2, 1⟩]
  exact ⟨h.1, h.2 (by simp)⟩

/-- For a finalized day `d`, filtering by any predicate confined to day `d`
sees the same rows before and after the finalization filter. -/
lemma filter_finalized_eq {now d : Int} {p : UTCRow → Bool}
    (h : is_day_finalized now d = true) (hp : ∀ r, p r = true → r.utc_date = d) :
    ∀ rs : List UTCRow, (finalized_days now rs).filter p = rs.filter p := by
  intro rs
  induction rs with
  | nil => rfl
  | cons r rs ih =>
    show ((r :: rs).filter fun x => is_day_finalized now x.utc_date).filter p
        = (r :: rs).filter p
    by_cases hpr : p r = true
    · have hfin : is_day_finalized now r.utc_date = true := by
        rw [hp r hpr]
        exact h
      simp only [List.filter_cons, hfin, hpr, if_true]
      rw [List.cons.injEq]
      exact ⟨rfl, ih⟩
    · have hpr' : p r = false := Bool.not_eq_true _ ▸ hpr
      rcases hfin : is_day_finalized now r.utc_date with _ | _
      · simp only [List.filter_cons, hfin, hpr', Bool.false_eq_true, if_false]
        exact ih
      · simp only [List.filter_cons, hfin, hpr', Bool.false_eq_true, if_true,
          if_false]
        exact ih

/-- The `daily_winners` minimum of a finalized day is unchanged by the
finalization filter. -/
lemma min_guessesUTC_finalized {now d : Int} {g : Nat}
    (h : is_day_finalized now d = true) (rs : List UTCRow) :
    min_guessesUTC (finalized_days now rs) g d = min_guessesUTC rs g d := by
  rw [min_guessesUTC, min_guessesUTC, solvedAtUTC, solvedAtUTC,
    filter_finalized_eq h]
  intro r hr
  simp only [Bool.and_eq_true, beq_iff_eq] at hr
  exact hr.2

/-- A row of a pending day is not part of the winner computation input. -/
lemma not_mem_finalized_days {now : Int} {r : UTCRow}
    (h : is_day_finalized now r.utc_date = false) (rs : List UTCRow) :
    r ∉ finalized_days now rs := by
  intro hmem
  rw [finalized_days, List.mem_filter] at hmem
  rw [hmem.2] at h
  cases h

/-- A pending day has an empty winner set under the UTC-12 view. -/
lemma winnersUTC_pending_empty {now d : Int} {g : Nat}
    (h : is_day_finalized now d = false) (rs : List UTCRow) :
    winnersUTC now rs g d = [] := by
  rw [winnersUTC, List.map_eq_nil_iff, List.filter_eq_nil_iff]
  intro r hr hb
  simp only [point_earnersUTC, List.mem_filter] at hr
  have hrf := hr.1
  rw [finalized_days, List.mem_filter] at hrf
  simp only [Bool.and_eq_true, beq_iff_eq] at hb
  rw [hb.2] at hrf
  rw [hrf.2] at h
  cases h

/-- Once a day is finalized, its UTC-12 winner set is the full recompute
over the raw rows. -/
lemma winnersUTC_eq_all_of_finalized {now d : Int} {g : Nat}
    (h : is_day_finalized now d = true) (rs : List UTCRow) :
    winnersUTC now rs g d = winnersUTCAll rs g d := by
  rw [winnersUTC, winnersUTCAll]
  simp only [point_earnersUTC, point_earnersUTCAll]
  rw [List.filter_filter, List.filter_filter]
  have h1 : ∀ a : UTCRow,
      ((a.group_id == g && a.utc_date == d) &&
        (a.solved && (min_guessesUTC (finalized_days now rs) a.group_id a.utc_date
          == some a.guess_count)))
      = ((a.group_id == g && a.utc_date == d) &&
        (a.solved && (min_guessesUTC rs g d == some a.guess_count))) := by
    intro a
    rcases hgd : (a.group_id == g && a.utc_date == d) with _ | _
    · simp
    · simp only [Bool.and_eq_true, beq_iff_eq] at hgd
      rw [hgd.1, hgd.2, min_guessesUTC_finalized h]
  have h2 : ∀ a : UTCRow,
      ((a.group_id == g && a.utc_date == d) &&
        (a.solved && (min_guessesUTC rs a.group_id a.utc_date
          == some a.guess_count)))
      = ((a.group_id == g && a.utc_date == d) &&
        (a.solved && (min_guessesUTC rs g d == some a.guess_count))) := by
    intro a
    rcases hgd : (a.group_id == g && a.utc_date == d) with _ | _
    · simp
    · simp only [Bool.and_eq_true, beq_iff_eq] at hgd
      rw [hgd.1, hgd.2]
  rw [List.filter_congr fun a _ => h1 a, List.filter_congr fun a _ => h2 a]
  rw [filter_finalized_eq h]
  intro r hr
  simp only [Bool.and_eq_true, beq_iff_eq] at hr
  exact hr.1.2

/-- C9: under the UTC-12 policy a day `d` is pending exactly until the wall
clock reaches `d + 36` hours (2160 minutes past its UTC midnight) and is
finalized forever after (monotone in time); while pending, the day's rows
are excluded from the winner computation input entirely and its winner set
is empty; once finalized, the day's winner set equals the full recompute
over the raw stored rows. -/
theorem claim_C9_utc12_finalization (now now' d : Int) (rs : List UTCRow)
    (g : Nat) :
    (is_day_finalized now d = false ↔ now < d * 1440 + 2160) ∧
    (now ≤ now' → is_day_finalized now d = true → is_day_finalized now' d = true) ∧
    (∀ r : UTCRow, r.utc_date = d → is_day_finalized now d = false →
      r ∉ finalized_days now rs) ∧
    (is_day_finalized now d = false → winnersUTC now rs g d = []) ∧
    (is_day_finalized now d = true → winnersUTC now rs g d = winnersUTCAll rs g d) := by
  refine ⟨?_, ?_, ?_, ?_, ?_⟩
  · rw [is_day_finalized, decide_eq_false_iff_not, not_le]
  · intro hle h
    rw [is_day_finalized, decide_eq_true_eq] at h ⊢
    omega
  · intro r hrd h
    rw [← hrd] at h
    exact not_mem_finalized_days h rs
  · intro h
    exact winnersUTC_pending_empty h rs
  · intro h
    exact winnersUTC_eq_all_of_finalized h rs

/-- Witness for C9 at a concrete input: day 0 is pending at minute 0 (its
one row yields no winner yet) and finalized at minute 2160 (its winner set
equals the full recompute). -/
theorem claim_C9_utc12_finalization_witness :
    winnersUTC 0 [(⟨1, 0, 0, 3, true⟩ : UTCRow)] 0 0 = [] ∧
    winnersUTC 2160 [(⟨1, 0, 0, 3, true⟩ : UTCRow)] 0 0
      = winnersUTCAll [(⟨1, 0, 0, 3, true⟩ : UTCRow)] 0 0 ∧
    is_day_finalized 2200 0 = true := by
  have h1 := claim_C9_utc12_finalization 0 0 0 [(⟨1, 0, 0, 3, true⟩ : UTCRow)] 0
  have h2 := claim_C9_utc12_finalization 2160 2200 0
    [(⟨1, 0, 0, 3, true⟩ : UTCRow)] 0
  exact ⟨h1.2.2.2.1 (by decide), h2.2.2.2.2 (by decide),
    h2.2.1 (by decide) (by decide)⟩

/-- The `CHECK (guess_count >= 1 AND guess_count <= 6)` constraint rejects an
out-of-range insert. -/
lemma insertDailyResult_bad_guess {db : DB} {r : ResultRow}
    (h : r.guess_count < 1 ∨ 6 < r.guess_count) :
    insertDailyResult db r = .error "guess_count check violation" := by
  have hc : (1 ≤ r.guess_count && r.guess_count ≤ 6) = false := by
    rcases h with h | h
    · simp [Nat.not_le.2 h]
    · simp [Nat.not_le.2 h]
  rw [insertDailyResult, if_pos]
  rw [hc]
  rfl

/-- With an out-of-range guess count, the group loop stores nothing. -/
lemma submit_fold_db_unchanged (user : Nat) (now : Instant) {gc : Nat}
    (solved : Bool) (h : gc < 1 ∨ 6 < gc) :
    ∀ (groups : List GroupInfo) (db : DB) (n : Nat) (errs : List String),
      (groups.foldl (submitStep user now gc solved) (db, n, errs)).1 = db := by
  intro groups
  induction groups with
  | nil =>
    intro db n errs
    rfl
  | cons gi gs ih =>
    intro db n errs
    rw [List.foldl_cons, submitStep]
    split
    · exact ih db n errs
    · rw [insertDailyResult_bad_guess h]
      exact ih db n (errs ++ ["guess_count check violation"])

/-- C10: a submission whose guess_count is outside 1..6 is rejected at the
boundary — the store is unchanged, so it contributes to no winner set and no
leaderboard. -/
theorem claim_C10_guess_range (db : DB) (user : Nat) (groups : List GroupInfo)
    (now : Instant) (gc : Nat) (solved : Bool) (h : gc < 1 ∨ 6 < gc) :
    (submitResult db user groups now gc solved).db = db ∧
    (∀ (prof : Nat → String) (g : Nat),
      getLeaderboard (submitResult db user groups now gc solved).db prof g
        = getLeaderboard db prof g) ∧
    (∀ (g : Nat) (d : Int),
      winners (submitResult db user groups now gc solved).db.daily_results g d
        = winners db.daily_results g d) := by
  have hdb : (submitResult db user groups now gc solved).db = db := by
    rw [submitResult]
    split
    · rw [submitPersonalResult]
      split
      · rfl
      · rw [insertDailyResult_bad_guess h]
    · exact submit_fold_db_unchanged user now solved h groups db 0 []
  refine ⟨hdb, ?_, ?_⟩
  · intro prof g
    rw [hdb]
  · intro g d
    rw [hdb]

/-- Witness for C10 at a concrete input: a submission with guess_count 9
stores nothing and leaves the leaderboard unchanged. -/
theorem claim_C10_guess_range_witness :
    (submitResult (⟨[], [], [⟨1, 0, true⟩]⟩ : DB) 1 [(⟨0, 5, 0⟩ : GroupInfo)]
      (⟨15000, 600⟩ : Instant) 9 true).db = (⟨[], [], [⟨1, 0, true⟩]⟩ : DB) ∧
    getLeaderboard (submitResult (⟨[], [], [⟨1, 0, true⟩]⟩ : DB) 1
        [(⟨0, 5, 0⟩ : GroupInfo)] (⟨15000, 600⟩ : Instant) 9 true).db
        (fun _ => "x") 0
      = getLeaderboard (⟨[], [], [⟨1, 0, true⟩]⟩ : DB) (fun _ => "x") 0 := by
  have h := claim_C10_guess_range (⟨[], [], [⟨1, 0, true⟩]⟩ : DB) 1
    [(⟨0, 5, 0⟩ : GroupInfo)] (⟨15000, 600⟩ : Instant) 9 true (by decide)
  exact ⟨h.1, h.2.1 (fun _ => "x") 0⟩

end GoofyGuesser
